import Mathlib

/-!
Verification of the offering-cache-and-scheduling subsystem of the xHacks
course-planner repository.

The definitions below are a shallow embedding of the TypeScript source:

* `normalizeCode`, `buildSemesterPlan` — from the recommend-courses route
  (`buildSemesterPlan`, `normalizeCode`);
* `semesterKey`, `getOfferingsForSemester`, `predictOfferingsForSemester`,
  `getOfferingsForSemesterWithPrediction`, `writeCache`, `listSemesters`,
  `getCurrentSemester` — from `src/lib/sfuOfferings.ts`.

External effects are made explicit: the network fetch becomes a function
argument, the current time a string argument, and the cache an explicit
value threaded through calls.  JavaScript `Record<string, string[]>`
objects are modelled as functions `String → Option (List String)`,
JavaScript `Map`/`Set` as association functions / ordered duplicate-free
lists, matching their insertion-order iteration semantics.
-/

namespace XHacks

/-! ## Course-code normalization

`normalizeCode` in the route:
```
const s = String(code || "").replace(/\s+/g, " ").trim().toUpperCase()
const parts = s.match(/^([A-Z]+)\s*(\d.*)$/)
if (parts) return parts[1] ++ " " ++ parts[2]
return s
```
Whitespace runs are collapsed to a single space, the string is trimmed and
upper-cased; if it then consists of letters, optional whitespace and a
digit-led remainder, the letters and remainder are joined by one space.
-/

/-- Collapse runs of consecutive spaces to a single space
(the effect of `replace(/\s+/g, " ")` once all whitespace is a space). -/
def squeezeSpaces : List Char → List Char
  | [] => []
  | [c] => [c]
  | a :: b :: rest =>
    if a = ' ' && b = ' ' then squeezeSpaces (b :: rest)
    else a :: squeezeSpaces (b :: rest)

/-- Remove leading and trailing spaces (JS `trim` on a space-collapsed string). -/
def trimSpaces (l : List Char) : List Char :=
  ((l.dropWhile (· = ' ')).reverse.dropWhile (· = ' ')).reverse

/-- Does the list start with a decimal digit (head of the `(\d.*)` group)? -/
def startsWithDigit : List Char → Bool
  | [] => false
  | c :: _ => c.isDigit

/-- Normalize "CMPT 120" / "CMPT120" → "CMPT 120" for comparison
(route function `normalizeCode`). -/
def normalizeCode (code : String) : String :=
  let s :=
    (trimSpaces (squeezeSpaces (code.data.map
      fun c => if c.isWhitespace then ' ' else c))).map Char.toUpper
  let letters := s.takeWhile Char.isUpper
  let rest := (s.dropWhile Char.isUpper).dropWhile (· = ' ')
  if !letters.isEmpty && startsWithDigit rest then
    String.mk (letters ++ ' ' :: rest)
  else String.mk s

example : normalizeCode "cmpt  120" = "CMPT 120" := by decide
example : normalizeCode "CMPT120" = "CMPT 120" := by decide
example : normalizeCode " math 150 " = "MATH 150" := by decide

/-! ## Semester scheduler (route function `buildSemesterPlan`) -/

/-- One semester of the horizon together with the result of
`getOfferingsForSemesterWithPrediction` for it: the scheduler's loop body
consumes `(year, term, label)` from `listSemesters` and
`(offerings, fromPrediction)` from the resolution call. -/
structure ResolvedSemester where
  year : Int
  term : String
  label : String
  offerings : List String
  fromPrediction : Bool
deriving DecidableEq, Repr

/-- `SemesterPlanItem` from `src/lib/types.ts`; the optional
`fromPrediction` field models `fromPrediction || undefined`. -/
structure SemesterPlanItem where
  year : Int
  term : String
  label : String
  courses : List String
  fromPrediction : Option Bool
deriving DecidableEq, Repr

/-- JS `Map.prototype.set` on a map modelled by its `get` function:
a later `set` for the same key overwrites the earlier value. -/
def mapSet (m : String → Option String) (k v : String) : String → Option String :=
  fun x => if x = k then some v else m x

/-- The route's `codeToOriginal` map: `for (c of recommendedCodes)
codeToOriginal.set(norm(c), c)` starting from an empty map. -/
def buildCodeToOriginal (norm : String → String) (codes : List String) :
    String → Option String :=
  codes.foldl (fun m c => mapSet m (norm c) c) fun _ => none

/-- JS `Set.prototype.add` on a set modelled as its insertion-ordered
element list: adding a present element is a no-op. -/
def setAdd (s : List String) (x : String) : List String :=
  if x ∈ s then s else s ++ [x]

/-- `new Set(list)`: insertion-ordered deduplication keeping the first
occurrence of each element. -/
def dedupFirst (l : List String) : List String := l.foldl setAdd []

/-- JS `Array.prototype.slice(0, e)`: a non-negative bound keeps the first
`e` elements; a negative bound counts from the end of the array
(`slice(0, -1)` drops the last element). -/
def jsSliceTo (e : Int) (l : List α) : List α :=
  if e < 0 then l.take (l.length - min (-e).toNat l.length) else l.take e.toNat

/-- `offeredFromList`: the not-yet-scheduled codes (in their insertion
order) that are offered this semester —
`Array.from(remaining).filter(c => offeredSet.has(c))` where
`offeredSet = new Set(offerings.map(norm))`. -/
def offeredFromList (norm : String → String) (sem : ResolvedSemester)
    (remaining : List String) : List String :=
  remaining.filter fun code => code ∈ sem.offerings.map norm

/-- `take = offeredFromList.slice(0, coursesPerSemester)`. -/
def termTaken (norm : String → String) (cap : Int) (sem : ResolvedSemester)
    (remaining : List String) : List String :=
  jsSliceTo cap (offeredFromList norm sem remaining)

/-- The `for (const { year, term, label } of semesters)` loop of
`buildSemesterPlan`, with the per-semester resolution results supplied in
the first list argument and the remaining-set threaded explicitly:

```
if (remaining.size === 0) break
const take = offeredFromList.slice(0, coursesPerSemester)
take.forEach(c => remaining.delete(c))
if (take.length > 0) plan.push({ year, term, label,
  courses: take.map(c => codeToOriginal.get(c) ?? c),
  fromPrediction: fromPrediction || undefined })
```
-/
def buildSemesterPlanGo (norm : String → String) (cap : Int)
    (c2o : String → Option String) :
    List ResolvedSemester → List String → List SemesterPlanItem
  | [], _ => []
  | sem :: rest, remaining =>
    if remaining.isEmpty then []
    else if (termTaken norm cap sem remaining).isEmpty then
      buildSemesterPlanGo norm cap c2o rest
        (remaining.filter fun code => code ∉ termTaken norm cap sem remaining)
    else
      { year := sem.year, term := sem.term, label := sem.label,
        courses := (termTaken norm cap sem remaining).map
          fun code => (c2o code).getD code,
        fromPrediction := if sem.fromPrediction then some true else none }
        :: buildSemesterPlanGo norm cap c2o rest
            (remaining.filter fun code => code ∉ termTaken norm cap sem remaining)

/-- Route function `buildSemesterPlan`, with the per-semester resolution
results (offerings and `fromPrediction` flag, normally produced by
`getOfferingsForSemesterWithPrediction` over the `listSemesters` horizon)
supplied as the `semesters` argument. -/
def buildSemesterPlan (norm : String → String) (recommendedCodes : List String)
    (coursesPerSemester : Int) (semesters : List ResolvedSemester) :
    List SemesterPlanItem :=
  buildSemesterPlanGo norm coursesPerSemester
    (buildCodeToOriginal norm recommendedCodes)
    semesters (dedupFirst (recommendedCodes.map norm))

/-- All course codes appearing in a plan, in order. -/
def planCourses (plan : List SemesterPlanItem) : List String :=
  plan.flatMap fun it => it.courses

/-! ## Offering cache and resolver (`src/lib/sfuOfferings.ts`)

`OfferingsCache.semesters` models the JS `Record<string, string[]>` by its
lookup function; `{ ...cache.semesters }` spreads and single-key updates
become the identity and a pointwise update.  The external fetch
(`fetchSemesterFromAPI`) and the wall clock (`new Date().toISOString()`)
are passed in as arguments `fetch` and `now`.  `writeCache` is a
fire-and-forget side effect that does not influence the returned value; it
is modelled separately below for the error-handling claim. -/

structure OfferingsCache where
  lastUpdated : String
  semesters : String → Option (List String)

/-- JS `toLowerCase`, character by character. -/
def jsToLower (s : String) : String := String.mk (s.data.map Char.toLower)

/-- `semesterKey(year, term) = `${year}-${term.toLowerCase()}`. -/
def semesterKey (year : Int) (term : String) : String :=
  toString year ++ "-" ++ jsToLower term

example : semesterKey 2023 "Fall" = "2023-fall" := by decide

/-- Truthiness of `cache.semesters[key]?.length`: the entry exists and is
non-empty. -/
def entryNonEmpty : Option (List String) → Bool
  | some l => l.length != 0
  | none => false

/-- `getOfferingsForSemester`: read cache first; if miss, fetch from API,
merge into a copied cache under the key, update the timestamp, (write the
cache — modelled separately), and return offerings plus updated cache. -/
def getOfferingsForSemester (year : Int) (term : String)
    (cache : Option OfferingsCache) (fetch : Int → String → List String)
    (now : String) : List String × OfferingsCache :=
  let key := semesterKey year term
  let nextCache : OfferingsCache :=
    match cache with
    | some c => { lastUpdated := c.lastUpdated, semesters := c.semesters }
    | none => { lastUpdated := now, semesters := fun _ => none }
  if entryNonEmpty (nextCache.semesters key) then
    ((nextCache.semesters key).getD [], nextCache)
  else
    let offerings := fetch year term
    (offerings,
     { lastUpdated := now,
       semesters := fun k => if k = key then some offerings
         else nextCache.semesters k })

/-- `predictOfferingsForSemester`: same term of the previous year from the
supplied cache, `[]` when the cache is null or the key absent. -/
def predictOfferingsForSemester (year : Int) (term : String)
    (cache : Option OfferingsCache) : List String :=
  match cache with
  | none => []
  | some c => (c.semesters (semesterKey (year - 1) term)).getD []

/-- `getOfferingsForSemesterWithPrediction`: resolve, and fall back to the
predictor on an empty result. -/
def getOfferingsForSemesterWithPrediction (year : Int) (term : String)
    (cache : Option OfferingsCache) (fetch : Int → String → List String)
    (now : String) : List String × OfferingsCache × Bool :=
  let r := getOfferingsForSemester year term cache fetch now
  if r.1.length > 0 then (r.1, r.2, false)
  else (predictOfferingsForSemester year term (some r.2), r.2, true)

/-- `writeCache` (`src/lib/sfuOfferings.ts` lines 76–91): the attempt to
serialize and persist `data` through the storage medium is wrapped in
`try { fs.writeFileSync(...) } catch (e) { /* do not re-throw */ }`.
The storage medium is modelled as a function from the cache value to the
outcome of the physical write (`.ok` or a thrown `.error`). -/
def writeCache (data : OfferingsCache)
    (storage : OfferingsCache → Except String Unit) : Except String Unit :=
  match storage data with
  | .ok u => .ok u
  | .error _ => .ok ()

/-! ## Horizon generation and current semester (`src/lib/sfuOfferings.ts`) -/

/-- `TERMS = ["spring", "summer", "fall"]`. -/
def TERMS : List String := ["spring", "summer", "fall"]

/-- One entry of the `listSemesters` output. -/
structure SemesterRef where
  year : Int
  term : String
  label : String
deriving DecidableEq, Repr

/-- `cap`: capitalize the first character (`charAt(0).toUpperCase() + slice(1)`). -/
def capFirst (s : String) : String :=
  match s.data with
  | [] => ""
  | c :: cs => String.mk (c.toUpper :: cs)

/-- The `for (let i = 0; i < maxSemesters; i++)` loop of `listSemesters`:
emit the current term, then advance through the fixed 3-term cycle,
wrapping to the next year after the last term. -/
def listSemestersGo : Nat → Nat → Int → List SemesterRef
  | 0, _, _ => []
  | n + 1, termIdx, year =>
    let term := TERMS.getD termIdx ""
    { year := year, term := term, label := capFirst term ++ " " ++ toString year }
      :: (if termIdx + 1 ≥ TERMS.length then listSemestersGo n 0 (year + 1)
          else listSemestersGo n (termIdx + 1) year)

/-- `listSemesters(startYear, startTerm, maxSemesters)`: the start index is
`TERMS.indexOf(startTerm.toLowerCase())`, silently replaced by `0` when
the term is not found (`if (termIdx < 0) termIdx = 0`). -/
def listSemesters (startYear : Int) (startTerm : String) (maxSemesters : Nat) :
    List SemesterRef :=
  let termIdx :=
    match TERMS.indexOf? (jsToLower startTerm) with
    | some i => i
    | none => 0
  listSemestersGo maxSemesters termIdx startYear

example : listSemesters 2024 "Fall" 2 =
    [⟨2024, "fall", "Fall 2024"⟩, ⟨2025, "spring", "Spring 2025"⟩] := by decide

/-- `getCurrentSemester`, as a function of the current date's calendar year
and 1-based month (`d.getFullYear()`, `d.getMonth() + 1`):
Spring Jan–Apr, Summer May–Aug, Fall Sep–Dec. -/
def getCurrentSemester (year : Int) (month : Nat) : Int × String :=
  (year, if month ≤ 4 then "spring" else if month ≤ 8 then "summer" else "fall")

/-- The semesters mapping of an optional cache (`null` has no keys). -/
def semestersOf : Option OfferingsCache → String → Option (List String)
  | none => fun _ => none
  | some c => c.semesters

/-- Specification-side scheduler selection, stated over normalized codes.
This definition follows the spec's words (§4.6 step 3), to be compared
with the implementation: "For each term in the horizon, in order: if
'remaining' is empty, stop early.  Otherwise … intersect with 'remaining'
preserving the original relative order of `desiredCodes`, take up to
`perTermCapacity` codes from the intersection (earliest-ranked first …),
remove them from 'remaining,' and if any were taken, append a plan item
for that term", where `remaining` starts from the ranked desired codes
with duplicates removed (first occurrences kept). -/
def specChosen (norm : String → String) (cap : Nat) (sem : ResolvedSemester)
    (remaining : List String) : List String :=
  (remaining.filter fun code => code ∈ sem.offerings.map norm).take cap

/-- The spec-side term sweep using `specChosen` each term, removing chosen
codes from `remaining` and skipping terms with an empty selection. -/
def specScheduleNorm (norm : String → String) (cap : Nat) :
    List ResolvedSemester → List String → List (List String)
  | [], _ => []
  | sem :: rest, remaining =>
    if remaining.isEmpty then []
    else if (specChosen norm cap sem remaining).isEmpty then
      specScheduleNorm norm cap rest
        (remaining.filter fun code => code ∉ specChosen norm cap sem remaining)
    else
      specChosen norm cap sem remaining
        :: specScheduleNorm norm cap rest
            (remaining.filter fun code => code ∉ specChosen norm cap sem remaining)

/-! ## Concrete fixtures used by witnesses and counterexamples -/

/-- A cache holding exactly `{"2023-fall": ["CMPT 120"]}` (§8 prediction
scenario). -/
def cacheFall2023 : OfferingsCache :=
  { lastUpdated := "2023-12-01",
    semesters := fun k => if k = "2023-fall" then some ["CMPT 120"] else none }

/-- A cache holding exactly `{"2024-fall": ["CMPT 225"]}`. -/
def cacheFall2024 : OfferingsCache :=
  { lastUpdated := "2024-09-01",
    semesters := fun k => if k = "2024-fall" then some ["CMPT 225"] else none }

/-- The cache produced by resolving `(2024, "fall")` against
`cacheFall2023` when the external fetch returns nothing. -/
def predictedCacheC3 : OfferingsCache :=
  { lastUpdated := "t1",
    semesters := fun k => if k = semesterKey 2024 "fall" then some []
      else cacheFall2023.semesters k }

/-! ## Lemmas on the JS collection primitives -/

theorem jsSliceTo_sublist (e : Int) (l : List α) :
    List.Sublist (jsSliceTo e l) l := by
  unfold jsSliceTo; split <;> exact List.take_sublist _ _

theorem jsSliceTo_of_nonneg (e : Int) (h : 0 ≤ e) (l : List α) :
    jsSliceTo e l = l.take e.toNat := by
  unfold jsSliceTo
  rw [if_neg (by omega)]

theorem jsSliceTo_length_le (e : Int) (h : 0 ≤ e) (l : List α) :
    ((jsSliceTo e l).length : Int) ≤ e := by
  rw [jsSliceTo_of_nonneg e h]
  have h1 : (l.take e.toNat).length ≤ e.toNat := by
    rw [List.length_take]; exact min_le_left _ _
  calc ((l.take e.toNat).length : Int) ≤ (e.toNat : Int) := by exact_mod_cast h1
    _ = e := Int.toNat_of_nonneg h

theorem jsSliceTo_zero (l : List α) : jsSliceTo 0 l = [] := by
  unfold jsSliceTo; simp

theorem mem_setAdd {s : List String} {x y : String} :
    y ∈ setAdd s x ↔ y ∈ s ∨ y = x := by
  unfold setAdd; split
  · next h =>
    constructor
    · exact Or.inl
    · rintro (h1 | rfl)
      · exact h1
      · exact h
  · simp

theorem setAdd_nodup {s : List String} (h : s.Nodup) (x : String) :
    (setAdd s x).Nodup := by
  unfold setAdd; split
  · exact h
  · next hx =>
    exact h.append (List.nodup_singleton x)
      (by intro a ha hb; simp at hb; exact hx (hb ▸ ha))

theorem foldl_setAdd_nodup :
    ∀ (l acc : List String), acc.Nodup → (l.foldl setAdd acc).Nodup
  | [], _, h => h
  | x :: xs, _, h => foldl_setAdd_nodup xs _ (setAdd_nodup h x)

theorem dedupFirst_nodup (l : List String) : (dedupFirst l).Nodup :=
  foldl_setAdd_nodup l [] List.nodup_nil

theorem mem_foldl_setAdd :
    ∀ (l acc : List String) (x : String), x ∈ l.foldl setAdd acc → x ∈ acc ∨ x ∈ l
  | [], _, _, h => Or.inl h
  | y :: ys, acc, x, h => by
    rcases mem_foldl_setAdd ys (setAdd acc y) x h with h1 | h1
    · rcases mem_setAdd.1 h1 with h2 | rfl
      · exact Or.inl h2
      · exact Or.inr (List.mem_cons_self _ _)
    · exact Or.inr (List.mem_cons_of_mem _ h1)

theorem mem_dedupFirst {l : List String} {x : String} (h : x ∈ dedupFirst l) :
    x ∈ l := by
  rcases mem_foldl_setAdd l [] x h with h1 | h1
  · simp at h1
  · exact h1

/-! ## Lemmas on the `codeToOriginal` map -/

theorem foldl_mapSet_lookup (norm : String → String) :
    ∀ (codes : List String) (m : String → Option String) (k : String),
      (codes.foldl (fun m c => mapSet m (norm c) c) m) k =
        (codes.reverse.find? fun d => norm d == k).or (m k)
  | [], m, k => by simp
  | c :: cs, m, k => by
    simp only [List.foldl_cons, List.reverse_cons, List.find?_append]
    rw [foldl_mapSet_lookup norm cs (mapSet m (norm c) c) k]
    cases hf : cs.reverse.find? (fun d => norm d == k) with
    | some v => rfl
    | none =>
      show mapSet m (norm c) c k = _
      unfold mapSet
      by_cases hk : k = norm c
      · simp [hk]
      · have : (norm c == k) = false := by
          simp only [beq_eq_false_iff_ne, ne_eq]
          exact fun h => hk h.symm
        simp [hk, this]

theorem buildCodeToOriginal_lookup (norm : String → String) (codes : List String)
    (k : String) :
    buildCodeToOriginal norm codes k = codes.reverse.find? fun d => norm d == k := by
  unfold buildCodeToOriginal
  rw [foldl_mapSet_lookup]
  exact Option.or_none

theorem buildCodeToOriginal_norm {norm : String → String} {codes : List String}
    {k v : String} (h : buildCodeToOriginal norm codes k = some v) : norm v = k := by
  rw [buildCodeToOriginal_lookup] at h
  have := List.find?_some h
  simpa using this

theorem buildCodeToOriginal_isSome (norm : String → String) {codes : List String}
    {c : String} (h : c ∈ codes) :
    ∃ v, buildCodeToOriginal norm codes (norm c) = some v := by
  rw [buildCodeToOriginal_lookup]
  cases hf : codes.reverse.find? (fun d => norm d == norm c) with
  | some v => exact ⟨v, rfl⟩
  | none =>
    rw [List.find?_eq_none] at hf
    exact absurd (by simp : (norm c == norm c) = true)
      (by simpa using hf c (List.mem_reverse.mpr h))

/-- Consistency of the remaining-set with the `codeToOriginal` map: every
remaining normalized code has a recorded display form that normalizes back
to it.  The scheduler's initial state satisfies this. -/
def OriginalsConsistent (norm : String → String) (c2o : String → Option String)
    (remaining : List String) : Prop :=
  ∀ k ∈ remaining, ∃ v, c2o k = some v ∧ norm v = k

theorem initial_originals_consistent (norm : String → String) (codes : List String) :
    OriginalsConsistent norm (buildCodeToOriginal norm codes)
      (dedupFirst (codes.map norm)) := by
  intro k hk
  obtain ⟨c, hc, rfl⟩ := List.mem_map.mp (mem_dedupFirst hk)
  obtain ⟨v, hv⟩ := buildCodeToOriginal_isSome norm hc
  exact ⟨v, hv, buildCodeToOriginal_norm hv⟩

/-! ## Invariants of the scheduler loop -/

theorem termTaken_sublist (norm : String → String) (cap : Int)
    (sem : ResolvedSemester) (remaining : List String) :
    List.Sublist (termTaken norm cap sem remaining) remaining :=
  (jsSliceTo_sublist _ _).trans (List.filter_sublist _)

theorem termTaken_map_norm {norm : String → String} {c2o : String → Option String}
    (cap : Int) (sem : ResolvedSemester) {remaining : List String}
    (hreq : OriginalsConsistent norm c2o remaining) :
    ((termTaken norm cap sem remaining).map fun code => (c2o code).getD code).map norm
      = termTaken norm cap sem remaining := by
  rw [List.map_map]
  have h : ∀ k ∈ termTaken norm cap sem remaining,
      (norm ∘ fun code => (c2o code).getD code) k = id k := by
    intro k hk
    obtain ⟨v, hv, hnv⟩ := hreq k ((termTaken_sublist norm cap sem remaining).subset hk)
    simp [hv, hnv]
  rw [List.map_congr_left h, List.map_id]

theorem originals_consistent_filter {norm : String → String}
    {c2o : String → Option String} {remaining : List String}
    (hreq : OriginalsConsistent norm c2o remaining) (p : String → Bool) :
    OriginalsConsistent norm c2o (remaining.filter p) :=
  fun k hk => hreq k (List.mem_filter.mp hk).1

theorem go_courses_provenance (norm : String → String) (cap : Int)
    (c2o : String → Option String) (sems : List ResolvedSemester) :
    ∀ remaining : List String, OriginalsConsistent norm c2o remaining →
      ∀ it ∈ buildSemesterPlanGo norm cap c2o sems remaining, ∀ c ∈ it.courses,
        norm c ∈ remaining ∧ c2o (norm c) = some c := by
  induction sems with
  | nil => intro remaining _ it hit; simp [buildSemesterPlanGo] at hit
  | cons sem rest ih =>
    intro remaining hreq it hit c hc
    rw [buildSemesterPlanGo] at hit
    by_cases hre : remaining.isEmpty = true
    · rw [if_pos hre] at hit; simp at hit
    · rw [if_neg hre] at hit
      have hfromRest :
          it ∈ buildSemesterPlanGo norm cap c2o rest
              (remaining.filter fun code => code ∉ termTaken norm cap sem remaining) →
          norm c ∈ remaining ∧ c2o (norm c) = some c := by
        intro hit'
        obtain ⟨h1, h2⟩ := ih _
          (originals_consistent_filter hreq _) it hit' c hc
        exact ⟨(List.filter_sublist remaining).subset h1, h2⟩
      by_cases htk : (termTaken norm cap sem remaining).isEmpty = true
      · rw [if_pos htk] at hit
        exact hfromRest hit
      · rw [if_neg htk] at hit
        rcases List.mem_cons.mp hit with rfl | hit'
        · simp only [List.mem_map] at hc
          obtain ⟨k, hk, rfl⟩ := hc
          have hkrem := (termTaken_sublist norm cap sem remaining).subset hk
          obtain ⟨v, hv, hnv⟩ := hreq k hkrem
          rw [hv]
          simp only [Option.getD_some]
          rw [hnv]
          exact ⟨hkrem, hv⟩
        · exact hfromRest hit'

theorem go_courses_nodup (norm : String → String) (cap : Int)
    (c2o : String → Option String) (sems : List ResolvedSemester) :
    ∀ remaining : List String, remaining.Nodup →
      OriginalsConsistent norm c2o remaining →
      ((planCourses (buildSemesterPlanGo norm cap c2o sems remaining)).map norm).Nodup ∧
      ∀ x ∈ (planCourses (buildSemesterPlanGo norm cap c2o sems remaining)).map norm,
        x ∈ remaining := by
  induction sems with
  | nil =>
    intro remaining _ _
    simp [buildSemesterPlanGo, planCourses]
  | cons sem rest ih =>
    intro remaining hnd hreq
    rw [buildSemesterPlanGo]
    by_cases hre : remaining.isEmpty = true
    · rw [if_pos hre]; simp [planCourses]
    · rw [if_neg hre]
      have hndF : (remaining.filter fun code =>
          code ∉ termTaken norm cap sem remaining).Nodup :=
        hnd.sublist (List.filter_sublist remaining)
      have hrest := ih _ hndF (originals_consistent_filter hreq _)
      by_cases htk : (termTaken norm cap sem remaining).isEmpty = true
      · rw [if_pos htk]
        refine ⟨hrest.1, fun x hx => ?_⟩
        exact (List.filter_sublist remaining).subset (hrest.2 x hx)
      · rw [if_neg htk]
        simp only [planCourses, List.flatMap_cons, List.map_append]
        rw [show (planCourses (buildSemesterPlanGo norm cap c2o rest
            (remaining.filter fun code => code ∉ termTaken norm cap sem remaining)))
            = (buildSemesterPlanGo norm cap c2o rest
            (remaining.filter fun code => code ∉ termTaken norm cap sem remaining)).flatMap
              (fun it => it.courses) from rfl] at hrest
        rw [termTaken_map_norm cap sem hreq]
        have htknd : (termTaken norm cap sem remaining).Nodup :=
          hnd.sublist (termTaken_sublist norm cap sem remaining)
        have hdisj : (termTaken norm cap sem remaining).Disjoint
            (((buildSemesterPlanGo norm cap c2o rest
              (remaining.filter fun code => code ∉ termTaken norm cap sem remaining)).flatMap
                (fun it => it.courses)).map norm) := by
          intro a ha hb
          have := hrest.2 a hb
          rw [List.mem_filter] at this
          exact absurd ha (by simpa using this.2)
        constructor
        · exact htknd.append hrest.1 hdisj
        · intro x hx
          rcases List.mem_append.mp hx with hx | hx
          · exact (termTaken_sublist norm cap sem remaining).subset hx
          · exact (List.filter_sublist remaining).subset (hrest.2 x hx)

theorem go_courses_length (norm : String → String) {cap : Int}
    (c2o : String → Option String) (hcap : 0 ≤ cap) (sems : List ResolvedSemester) :
    ∀ remaining : List String,
      ∀ it ∈ buildSemesterPlanGo norm cap c2o sems remaining,
        (it.courses.length : Int) ≤ cap := by
  induction sems with
  | nil => intro remaining it hit; simp [buildSemesterPlanGo] at hit
  | cons sem rest ih =>
    intro remaining it hit
    rw [buildSemesterPlanGo] at hit
    by_cases hre : remaining.isEmpty = true
    · rw [if_pos hre] at hit; simp at hit
    · rw [if_neg hre] at hit
      by_cases htk : (termTaken norm cap sem remaining).isEmpty = true
      · rw [if_pos htk] at hit
        exact ih _ it hit
      · rw [if_neg htk] at hit
        rcases List.mem_cons.mp hit with rfl | hit'
        · simp only [List.length_map]
          exact jsSliceTo_length_le cap hcap _
        · exact ih _ it hit'

theorem go_zero_cap (norm : String → String) (c2o : String → Option String)
    (sems : List ResolvedSemester) :
    ∀ remaining : List String,
      buildSemesterPlanGo norm 0 c2o sems remaining = [] := by
  induction sems with
  | nil => intro remaining; rfl
  | cons sem rest ih =>
    intro remaining
    rw [buildSemesterPlanGo]
    have htk : termTaken norm 0 sem remaining = [] := jsSliceTo_zero _
    by_cases hre : remaining.isEmpty = true
    · rw [if_pos hre]
    · rw [if_neg hre, if_pos (by simp [htk]), ih]

theorem nodup_planCourses_pairwise (norm : String → String) :
    ∀ plan : List SemesterPlanItem, ((planCourses plan).map norm).Nodup →
      plan.Pairwise fun a b => ∀ x ∈ a.courses, x ∉ b.courses := by
  intro plan
  induction plan with
  | nil => intro _; exact List.Pairwise.nil
  | cons it rest ih =>
    intro h
    simp only [planCourses, List.flatMap_cons, List.map_append] at h
    have hdisj := List.disjoint_of_nodup_append h
    refine List.Pairwise.cons ?_ (ih (h.of_append_right))
    intro b hb x hx hxb
    exact hdisj (List.mem_map_of_mem norm hx)
      (List.mem_map_of_mem norm (List.mem_flatMap.mpr ⟨b, hb, hxb⟩))

theorem go_refines_spec (norm : String → String) {cap : Int}
    (c2o : String → Option String) (hcap : 0 ≤ cap) (sems : List ResolvedSemester) :
    ∀ remaining : List String, OriginalsConsistent norm c2o remaining →
      (buildSemesterPlanGo norm cap c2o sems remaining).map
          (fun it => it.courses.map norm)
        = specScheduleNorm norm cap.toNat sems remaining := by
  induction sems with
  | nil => intro remaining _; rfl
  | cons sem rest ih =>
    intro remaining hreq
    rw [buildSemesterPlanGo, specScheduleNorm]
    have hchos : termTaken norm cap sem remaining
        = specChosen norm cap.toNat sem remaining := by
      rw [termTaken, specChosen, jsSliceTo_of_nonneg cap hcap, offeredFromList]
    by_cases hre : remaining.isEmpty = true
    · rw [if_pos hre, if_pos hre]; rfl
    · rw [if_neg hre, if_neg hre, ← hchos]
      by_cases htk : (termTaken norm cap sem remaining).isEmpty = true
      · rw [if_pos htk, if_pos htk]
        exact ih _ (originals_consistent_filter hreq _)
      · rw [if_neg htk, if_neg htk, List.map_cons]
        rw [termTaken_map_norm cap sem hreq]
        rw [ih _ (originals_consistent_filter hreq _)]

/-! ## Unfolding equations of the resolver -/

theorem getOfferingsForSemester_some_eq (year : Int) (term : String)
    (c : OfferingsCache) (f : Int → String → List String) (now : String) :
    getOfferingsForSemester year term (some c) f now =
      if entryNonEmpty (c.semesters (semesterKey year term)) then
        ((c.semesters (semesterKey year term)).getD [], c)
      else
        (f year term,
         { lastUpdated := now,
           semesters := fun k => if k = semesterKey year term
             then some (f year term) else c.semesters k }) := rfl

theorem getOfferingsForSemester_none_eq (year : Int) (term : String)
    (f : Int → String → List String) (now : String) :
    getOfferingsForSemester year term none f now =
      (f year term,
       { lastUpdated := now,
         semesters := fun k => if k = semesterKey year term
           then some (f year term) else none }) := rfl

/-! ## Claim theorems -/

/-- C1 (counterexample): for the non-positive capacity `-1` and two desired
courses both offered in the single considered term, `buildSemesterPlan`
returns a non-empty plan whose item holds one course — JS
`slice(0, -1)` drops one element from the end instead of capping to
zero — so the claim's "plan items have at most `perTermCapacity` courses"
and "non-positive capacity yields an empty plan" are both false. -/
theorem scheduler_capacity_counterexample :
    (-1 : Int) ≤ 0 ∧
    buildSemesterPlan normalizeCode ["CMPT 120", "MATH 150"] (-1)
        [⟨2024, "fall", "Fall 2024", ["CMPT 120", "MATH 150"], false⟩]
      = [⟨2024, "fall", "Fall 2024", ["CMPT 120"], none⟩] ∧
    ¬ (∀ it ∈ buildSemesterPlan normalizeCode ["CMPT 120", "MATH 150"] (-1)
          [⟨2024, "fall", "Fall 2024", ["CMPT 120", "MATH 150"], false⟩],
        (it.courses.length : Int) ≤ -1) ∧
    buildSemesterPlan normalizeCode ["CMPT 120", "MATH 150"] (-1)
        [⟨2024, "fall", "Fall 2024", ["CMPT 120", "MATH 150"], false⟩] ≠ [] := by
  decide

/-- C1 (amended): for every non-negative per-term capacity, every plan item
produced by `buildSemesterPlan` has a courses list of length at most the
capacity, and a capacity of zero yields an empty plan.  (A negative
capacity is not capped to zero: `slice(0, cap)` then drops `-cap` entries
from the end of each term's eligible list.) -/
theorem scheduler_capacity_amended (norm : String → String) (codes : List String)
    {cap : Int} (sems : List ResolvedSemester) (hcap : 0 ≤ cap) :
    (∀ it ∈ buildSemesterPlan norm codes cap sems,
      (it.courses.length : Int) ≤ cap) ∧
    (cap = 0 → buildSemesterPlan norm codes cap sems = []) := by
  constructor
  · exact go_courses_length norm _ hcap sems _
  · rintro rfl
    exact go_zero_cap norm _ sems _

/-- Witness for the amended C1 at capacity zero. -/
theorem scheduler_capacity_witness :
    (0 : Int) ≤ 0 ∧
    buildSemesterPlan normalizeCode ["CMPT 120"] 0
      [⟨2024, "fall", "Fall 2024", ["CMPT 120"], false⟩] = [] :=
  ⟨by decide,
   (scheduler_capacity_amended normalizeCode ["CMPT 120"]
      [⟨2024, "fall", "Fall 2024", ["CMPT 120"], false⟩] (by decide)).2 rfl⟩

/-- C2: for every normalizer, desired-code list, capacity, and sequence of
resolved offerings, no course code (under normalization) appears twice
anywhere in the plan returned by `buildSemesterPlan`, and the course lists
of any two distinct plan items are disjoint. -/
theorem scheduler_no_duplicates (norm : String → String) (codes : List String)
    (cap : Int) (sems : List ResolvedSemester) :
    ((planCourses (buildSemesterPlan norm codes cap sems)).map norm).Nodup ∧
    (buildSemesterPlan norm codes cap sems).Pairwise
      fun a b => ∀ x ∈ a.courses, x ∉ b.courses := by
  have h := go_courses_nodup norm cap (buildCodeToOriginal norm codes) sems
    (dedupFirst (codes.map norm)) (dedupFirst_nodup _)
    (initial_originals_consistent norm codes)
  exact ⟨h.1, nodup_planCourses_pairwise norm _ h.1⟩

/-- C4: for every non-negative capacity, the normalized course lists of the
plan items produced by `buildSemesterPlan` are exactly those of the
spec-side sweep `specScheduleNorm`, which each term takes up to the
capacity from the intersection of the offered codes with the
remaining desired codes, earliest-ranked first in the caller-supplied
order restricted to first occurrences of duplicated codes
(`dedupFirst`). -/
theorem scheduler_rank_order (norm : String → String) (codes : List String)
    {cap : Int} (sems : List ResolvedSemester) (hcap : 0 ≤ cap) :
    (buildSemesterPlan norm codes cap sems).map (fun it => it.courses.map norm)
      = specScheduleNorm norm cap.toNat sems (dedupFirst (codes.map norm)) :=
  go_refines_spec norm _ hcap sems _ (initial_originals_consistent norm codes)

/-- Witness for C4 on the §8 end-to-end scenario: desired
`[CMPT 225, CMPT 295, MATH 240]`, capacity 2, Fall 2024 offering
`{CMPT 225, MATH 240}` and Spring 2025 offering `{CMPT 295}`. -/
theorem scheduler_rank_order_witness :
    (0 : Int) ≤ 2 ∧
    ((buildSemesterPlan normalizeCode ["CMPT 225", "CMPT 295", "MATH 240"] 2
        [⟨2024, "fall", "Fall 2024", ["CMPT 225", "MATH 240"], false⟩,
         ⟨2025, "spring", "Spring 2025", ["CMPT 295"], false⟩]).map
        (fun it => it.courses.map normalizeCode)
      = specScheduleNorm normalizeCode 2
          [⟨2024, "fall", "Fall 2024", ["CMPT 225", "MATH 240"], false⟩,
           ⟨2025, "spring", "Spring 2025", ["CMPT 295"], false⟩]
          (dedupFirst (["CMPT 225", "CMPT 295", "MATH 240"].map normalizeCode))) ∧
    specScheduleNorm normalizeCode 2
        [⟨2024, "fall", "Fall 2024", ["CMPT 225", "MATH 240"], false⟩,
         ⟨2025, "spring", "Spring 2025", ["CMPT 295"], false⟩]
        (dedupFirst (["CMPT 225", "CMPT 295", "MATH 240"].map normalizeCode))
      = [["CMPT 225", "MATH 240"], ["CMPT 295"]] :=
  ⟨by decide,
   scheduler_rank_order normalizeCode ["CMPT 225", "CMPT 295", "MATH 240"]
     [⟨2024, "fall", "Fall 2024", ["CMPT 225", "MATH 240"], false⟩,
      ⟨2025, "spring", "Spring 2025", ["CMPT 295"], false⟩] (by decide),
   by decide⟩

/-- C8 (counterexample): with desired list `["CMPT 120", "cmpt 120"]` —
two display forms of one normalized code — the single plan item carries
the LAST display form `"cmpt 120"`, not the first `"CMPT 120"`:
`codeToOriginal.set(norm(c), c)` overwrites on duplicate keys. -/
theorem scheduler_display_form_counterexample :
    normalizeCode "cmpt 120" = normalizeCode "CMPT 120" ∧
    "cmpt 120" ≠ "CMPT 120" ∧
    buildSemesterPlan normalizeCode ["CMPT 120", "cmpt 120"] 3
        [⟨2024, "fall", "Fall 2024", ["CMPT 120"], false⟩]
      = [⟨2024, "fall", "Fall 2024", ["cmpt 120"], none⟩] := by
  decide

/-- C8 (amended): a duplicated code is deduplicated (no normalized code is
scheduled twice), and every plan item that schedules a course carries the
LAST display form from the input list among those with the same
normalization (`find?` over the reversed input). -/
theorem scheduler_display_form_amended (norm : String → String)
    (codes : List String) (cap : Int) (sems : List ResolvedSemester) :
    ((planCourses (buildSemesterPlan norm codes cap sems)).map norm).Nodup ∧
    ∀ it ∈ buildSemesterPlan norm codes cap sems, ∀ c ∈ it.courses,
      codes.reverse.find? (fun d => norm d == norm c) = some c := by
  constructor
  · exact (go_courses_nodup norm cap (buildCodeToOriginal norm codes) sems
      (dedupFirst (codes.map norm)) (dedupFirst_nodup _)
      (initial_originals_consistent norm codes)).1
  · intro it hit c hc
    have h := go_courses_provenance norm cap (buildCodeToOriginal norm codes) sems
      (dedupFirst (codes.map norm)) (initial_originals_consistent norm codes)
      it hit c hc
    have h2 := h.2
    rwa [buildCodeToOriginal_lookup] at h2

/-- Witness for the amended C8 on the counterexample input. -/
theorem scheduler_display_form_witness :
    ["CMPT 120", "cmpt 120"].reverse.find?
        (fun d => normalizeCode d == normalizeCode "cmpt 120")
      = some "cmpt 120" :=
  (scheduler_display_form_amended normalizeCode ["CMPT 120", "cmpt 120"] 3
      [⟨2024, "fall", "Fall 2024", ["CMPT 120"], false⟩]).2
    ⟨2024, "fall", "Fall 2024", ["cmpt 120"], none⟩ (by decide)
    "cmpt 120" (by decide)

/-- C5: when the cache's entry for the term key exists and is non-empty,
`getOfferingsForSemester` returns that entry and the cache unchanged, for
ANY external fetch function and any call time — in particular it never
consults the fetch, and a second resolution of the same term against the
returned (identical) cache yields the identical offering set with the
cache data for that key unchanged. -/
theorem resolver_cache_hit (year : Int) (term : String) (c : OfferingsCache)
    (l : List String) (f g : Int → String → List String) (now1 now2 : String)
    (hentry : c.semesters (semesterKey year term) = some l) (hne : l ≠ []) :
    getOfferingsForSemester year term (some c) f now1 = (l, c) ∧
    getOfferingsForSemester year term (some c) g now2 = (l, c) := by
  have hlen : l.length ≠ 0 := fun h => hne (List.length_eq_zero.mp h)
  constructor <;>
  · unfold getOfferingsForSemester
    simp only [hentry, entryNonEmpty]
    rw [if_pos (by simpa using hlen)]
    rfl

/-- Witness for C5 on a cache holding `{"2024-fall": ["CMPT 225"]}`: two
resolutions with different fetch behaviours and times both return the
entry and the cache unchanged. -/
theorem resolver_cache_hit_witness :
    getOfferingsForSemester 2024 "fall" (some cacheFall2024)
        (fun _ _ => ["XXX 1"]) "t1" = (["CMPT 225"], cacheFall2024) ∧
    getOfferingsForSemester 2024 "fall" (some cacheFall2024)
        (fun _ _ => []) "t2" = (["CMPT 225"], cacheFall2024) :=
  resolver_cache_hit 2024 "fall" cacheFall2024 ["CMPT 225"]
    (fun _ _ => ["XXX 1"]) (fun _ _ => []) "t1" "t2" rfl (by decide)

/-- C6: the cache returned by `getOfferingsForSemester` differs from the
input cache at most at the resolved term's key: every other key keeps the
input's value (so every key present stays present with the same offering
list), and any key present in the input is still present afterwards. -/
theorem resolver_cache_frame (year : Int) (term : String)
    (cache : Option OfferingsCache) (f : Int → String → List String)
    (now : String) :
    (∀ k, k ≠ semesterKey year term →
      ((getOfferingsForSemester year term cache f now).2).semesters k
        = semestersOf cache k) ∧
    (∀ k l, semestersOf cache k = some l →
      ∃ l', ((getOfferingsForSemester year term cache f now).2).semesters k
        = some l') := by
  cases cache with
  | none =>
    rw [getOfferingsForSemester_none_eq]
    constructor
    · intro k hk
      show (if k = semesterKey year term then some (f year term) else none)
        = semestersOf none k
      rw [if_neg hk]
      rfl
    · intro k l hl
      simp [semestersOf] at hl
  | some c =>
    rw [getOfferingsForSemester_some_eq]
    constructor
    · intro k hk
      split_ifs
      · rfl
      · show (if k = semesterKey year term then some (f year term)
            else c.semesters k) = semestersOf (some c) k
        rw [if_neg hk]
        rfl
    · intro k l hl
      replace hl : c.semesters k = some l := hl
      split_ifs
      · exact ⟨l, hl⟩
      · by_cases hk : k = semesterKey year term
        · refine ⟨f year term, ?_⟩
          show (if k = semesterKey year term then some (f year term)
            else c.semesters k) = some (f year term)
          rw [if_pos hk]
        · refine ⟨l, ?_⟩
          show (if k = semesterKey year term then some (f year term)
            else c.semesters k) = some l
          rw [if_neg hk]
          exact hl

/-- Witness for C6: resolving `(2024, "fall")` against a cache holding
`{"2023-fall": ["CMPT 120"]}` with an empty fetch leaves the
`"2023-fall"` entry present and unchanged. -/
theorem resolver_cache_frame_witness :
    ((getOfferingsForSemester 2024 "fall" (some cacheFall2023)
        (fun _ _ => []) "t1").2).semesters "2023-fall" = some ["CMPT 120"] ∧
    ∃ l', ((getOfferingsForSemester 2024 "fall" (some cacheFall2023)
        (fun _ _ => []) "t1").2).semesters "2023-fall" = some l' :=
  ⟨((resolver_cache_frame 2024 "fall" (some cacheFall2023)
      (fun _ _ => []) "t1").1 "2023-fall" (by decide)).trans rfl,
   (resolver_cache_frame 2024 "fall" (some cacheFall2023)
      (fun _ _ => []) "t1").2 "2023-fall" ["CMPT 120"] rfl⟩

/-- C3: if the resolution step returns a non-empty offering set, the
wrapper returns it with `fromPrediction = false`; if it returns an empty
set, the wrapper returns the cache entry for `(year − 1, term)` of the
updated cache (empty when absent) with `fromPrediction = true`. -/
theorem resolver_prediction_wrapper (year : Int) (term : String)
    (cache : Option OfferingsCache) (f : Int → String → List String)
    (now : String) (o : List String) (c' : OfferingsCache)
    (h : getOfferingsForSemester year term cache f now = (o, c')) :
    (o ≠ [] → getOfferingsForSemesterWithPrediction year term cache f now
      = (o, c', false)) ∧
    (o = [] → getOfferingsForSemesterWithPrediction year term cache f now
      = ((c'.semesters (semesterKey (year - 1) term)).getD [], c', true)) := by
  unfold getOfferingsForSemesterWithPrediction
  rw [h]
  constructor
  · intro ho
    rw [if_pos (by simpa using List.length_pos.mpr ho)]
  · rintro rfl
    rw [if_neg (by simp)]
    rfl

/-- Witness for C3, realizing the §8 prediction scenario: a cache
containing `{"2023-fall": ["CMPT 120"]}` and no entry for `"2024-fall"`,
with an external fetch returning empty, resolves `(2024, "fall")` to
offerings `["CMPT 120"]` and `fromPrediction = true`. -/
theorem resolver_prediction_wrapper_witness :
    getOfferingsForSemesterWithPrediction 2024 "fall" (some cacheFall2023)
      (fun _ _ => []) "t1" = (["CMPT 120"], predictedCacheC3, true) := by
  have h := (resolver_prediction_wrapper 2024 "fall" (some cacheFall2023)
    (fun _ _ => []) "t1" [] predictedCacheC3 rfl).2 rfl
  rw [h]
  rfl

/-- C7: `writeCache` never propagates an exception: whatever the storage
medium does with the value — succeed or throw — the function returns
normally (`try { writeFileSync } catch { /* swallowed */ }`). -/
theorem writeCache_never_throws (data : OfferingsCache)
    (storage : OfferingsCache → Except String Unit) :
    writeCache data storage = .ok () := by
  unfold writeCache
  cases storage data with
  | ok u => rfl
  | error e => rfl

/-- C9 (code behaviour at the failing input): for the malformed start term
`"winter"`, which is outside the fixed three-term cycle, `listSemesters`
does NOT fail: `TERMS.indexOf` returns −1, the code silently substitutes
index 0, and a full spring-led horizon is produced with no error. -/
theorem listSemesters_unknown_term_eval :
    listSemesters 2024 "winter" 3 =
      [⟨2024, "spring", "Spring 2024"⟩, ⟨2024, "summer", "Summer 2024"⟩,
       ⟨2024, "fall", "Fall 2024"⟩] ∧
    "winter" ∉ TERMS := by
  decide

/-- C10: for every calendar year and month in 1–12, `getCurrentSemester`
returns the calendar year together with a term that is one of the three
cycle terms, determined solely by the month: spring for months 1–4,
summer for 5–8, fall for 9–12. -/
theorem getCurrentSemester_months (year : Int) (month : Nat)
    (h1 : 1 ≤ month) (h2 : month ≤ 12) :
    (getCurrentSemester year month).1 = year ∧
    (getCurrentSemester year month).2 ∈ TERMS ∧
    (month ≤ 4 → (getCurrentSemester year month).2 = "spring") ∧
    (5 ≤ month → month ≤ 8 → (getCurrentSemester year month).2 = "summer") ∧
    (9 ≤ month → (getCurrentSemester year month).2 = "fall") := by
  unfold getCurrentSemester TERMS
  refine ⟨rfl, ?_, ?_, ?_, ?_⟩
  · split_ifs <;> simp
  · intro h; rw [if_pos h]
  · intro h5 h8
    rw [if_neg (by omega), if_pos h8]
  · intro h9
    rw [if_neg (by omega), if_neg (by omega)]

/-- Witness for C10 at October (month 10). -/
theorem getCurrentSemester_months_witness :
    (getCurrentSemester 2024 10).1 = 2024 ∧
    (getCurrentSemester 2024 10).2 = "fall" :=
  ⟨(getCurrentSemester_months 2024 10 (by decide) (by decide)).1,
   (getCurrentSemester_months 2024 10 (by decide) (by decide)).2.2.2.2
     (by decide)⟩

end XHacks
